import Mathlib

/-!
# Verification of the portfolio rebalancing engine (`src/portfolio.rs`)

Shallow embedding of the allocation engine: the `Asset`/`Portfolio` data
model, loading/validation (`load_portfolio_from_file`), the two rebalancing
strategies (`rebalance`, `add_without_selling`), the action diff
(`get_actions`) and the display projection (`get_display_data`).

## Model of `rust_decimal::Decimal`

The Rust code computes with `rust_decimal::Decimal`, a fixed-precision
decimal (96-bit integer mantissa, decimal scale 0..28).  We model a decimal
number as its value scaled by `10^28`, i.e. `Dec := Int` where the integer
`n` represents the number `n / 10^28`.  Every decimal with scale at most 28
is represented exactly and injectively, and decimal equality/order coincide
with integer equality/order of the representations.

* addition, subtraction, negation and comparisons are exact, matching the
  Rust semantics at every magnitude where Rust returns at all;
* multiplication `mulD` and division `divD` round the exact result to 28
  fractional digits, half away from zero.  `rust_decimal` produces the
  rounded 28-fractional-digit result whenever that result's mantissa fits
  in 96 bits (e.g. `1/3 = 0.3333333333333333333333333333` and
  `2/3 = 0.6666666666666666666666666667`), which holds throughout this
  development; multiplication is exact whenever the exact product has
  scale at most 28, as in every concrete computation below;
* division by zero panics in Rust.  Panics are modelled by the enclosing
  operation returning the `crash` result, with explicit zero-divisor
  guards placed exactly at the code's division sites;
* the 96-bit mantissa bound itself is NOT modelled: `Dec` is unbounded.
  `rust_decimal`'s `+`, `-`, `*` and `/` panic when a result cannot be
  represented even at scale 0 (magnitude at least `2^96`, about
  `7.9 * 10^28`), and they round at coarser scales than 28 when a
  large-magnitude inexact result's 28-digit mantissa would overflow;
  neither behaviour has a counterpart in this model.  Every theorem below
  therefore describes the program only at magnitudes where `rust_decimal`
  computes the same values and raises no overflow panic — which a reader
  can check holds for every concrete input used here — and no theorem
  asserts the absence of overflow panics: totality of the engine fails
  already for reachable small inputs (division by a zero total, see the
  C5 theorem), and fails at extreme magnitudes through overflow as well.
-/

namespace Rebalancer

/-- A decimal number, represented as its value scaled by `10 ^ 28`. -/
abbrev Dec := Int

/-- The scale factor of the decimal representation, as a natural number. -/
def decScaleN : Nat := 10 ^ 28

/-- The scale factor of the decimal representation: a represented decimal
is `n / decScale`. -/
def decScale : Int := 10 ^ 28

/-- Integer division rounding half away from zero (the rounding
`rust_decimal` applies to an exact quotient that needs more than 28
fractional digits).  Junk value (quotient `0` branch-free) when `b = 0`;
all uses are guarded. -/
def roundAwayDiv (a b : Int) : Int :=
  if (0 ≤ a) ↔ (0 ≤ b) then ((2 * a.natAbs + b.natAbs) / (2 * b.natAbs) : Nat)
  else -(((2 * a.natAbs + b.natAbs) / (2 * b.natAbs) : Nat) : Int)

/-- Decimal multiplication: exact product, rounded back to scale 28. -/
def mulD (x y : Dec) : Dec := roundAwayDiv (x * y) decScale

/-- Decimal division: exact quotient rounded to 28 fractional digits.
The Rust `/` on `Decimal` panics when the divisor is zero; the operations
below guard every use. -/
def divD (x y : Dec) : Dec := roundAwayDiv (x * decScale) y

/-- Truncation of a decimal toward zero, to an unbounded integer
(the integral part used by `rust_decimal`'s `ToPrimitive` casts). -/
def truncZ (d : Dec) : Int :=
  if 0 ≤ d then (d.toNat / decScaleN : Nat) else -((-d).toNat / decScaleN : Nat)

/-- `rust_decimal`'s `ToPrimitive::to_u32`: truncates toward zero; `none`
for negative inputs or when the integral part exceeds `u32::MAX`. -/
def Dec.to_u32 (d : Dec) : Option Nat :=
  if d < 0 then none
  else if truncZ d < 2 ^ 32 then some (truncZ d).toNat else none

/-- `rust_decimal`'s `ToPrimitive::to_i32`: truncates toward zero; `none`
when the integral part lies outside the `i32` range. -/
def Dec.to_i32 (d : Dec) : Option Int :=
  if -(2 ^ 31) ≤ truncZ d ∧ truncZ d < 2 ^ 31 then some (truncZ d) else none

/-- `i32` negation with release-mode two's-complement wrapping: the source
computes `-d.to_i32()...`, and negating `i32::MIN` wraps to `i32::MIN`. -/
def i32_neg_wrapping (n : Int) : Int := if n = -(2 ^ 31) then -(2 ^ 31) else -n

/-- `u32::try_from` on an `i32`-range integer. -/
def u32_try_from (n : Int) : Option Nat :=
  if 0 ≤ n ∧ n < 2 ^ 32 then some n.toNat else none

/-- `dec!(100.0)` in the decimal representation. -/
def dec100 : Dec := 100 * decScale

/-- One holding: `struct Asset` (`value` is the derived field, set to `0`
by deserialization and recomputed by the engine). -/
structure Asset where
  name : String
  price : Dec
  count : Dec
  alloc : Dec
  value : Dec
deriving DecidableEq, Repr

/-- `struct Portfolio` (the derived `value` deserializes to `0`). -/
structure Portfolio where
  assets : List Asset
  donotsell : Bool
  value : Dec
deriving DecidableEq, Repr

/-- `enum BuySell`. -/
inductive BuySell where
  | buy
  | sell
deriving DecidableEq, Repr

/-- `struct Action`. -/
structure Action where
  buysell : BuySell
  amount : Nat
  name : String
  transaction_value : Dec
deriving DecidableEq, Repr

/-- Result of an engine operation: `ok`, a modelled error return
(`anyhow::Result::Err`), or `crash`, which models a Rust panic
(division by zero, failed `assert!`, index out of bounds). -/
inductive RRes (α : Type) where
  | ok (a : α)
  | err
  | crash
deriving DecidableEq, Repr

/-- `static CURRENCY: &str = "USD"`. -/
def CURRENCY : String := "USD"

/-- `Portfolio::get_allocation_sum`. -/
def Portfolio.get_allocation_sum (p : Portfolio) : Dec :=
  (p.assets.map Asset.alloc).sum

/-- `Portfolio::is_target_allocation_sane`. -/
def Portfolio.is_target_allocation_sane (p : Portfolio) : Bool :=
  p.get_allocation_sum = dec100

/-- `Portfolio::get_currency`: the first asset named `"USD"`, if any. -/
def Portfolio.get_currency (p : Portfolio) : Option Asset :=
  p.assets.find? (fun a => a.name = CURRENCY)

/-- `Portfolio::has_currency`. -/
def Portfolio.has_currency (p : Portfolio) : Bool :=
  p.get_currency.isSome

/-- Sum of the `value` fields of a list of assets (the `+=` accumulation
loops of the source). -/
def sum_values (l : List Asset) : Dec := (l.map Asset.value).sum

/-- `Portfolio::calculate_asset_values`: sets each `value` to
`price * count` and adds all of them onto the portfolio's `value`. -/
def Portfolio.calculate_asset_values (p : Portfolio) : Portfolio :=
  { p with
    assets := p.assets.map (fun a => { a with value := mulD a.price a.count }),
    value := p.value +
      sum_values (p.assets.map (fun a => { a with value := mulD a.price a.count })) }

/-- `Portfolio::recalc_allocation`: `alloc = (value / portfolio.value) * 100`
for every asset.  The division panics when `portfolio.value` is zero. -/
def Portfolio.recalc_allocation (p : Portfolio) : RRes Portfolio :=
  if p.value = 0 then .crash
  else .ok { p with
    assets := p.assets.map (fun a => { a with alloc := mulD (divD a.value p.value) dec100 }) }

/-- The first loop of `Portfolio::rebalance`: for every asset,
`count = (portfolio.value * alloc / 100) / price` and `value = price * count`
(the portfolio's `value` field is not modified by this loop, so every
iteration reads the original total). -/
def rebalance_assets1 (p : Portfolio) : List Asset :=
  p.assets.map (fun a =>
    { a with
      count := divD (divD (mulD p.value a.alloc) dec100) a.price,
      value := mulD a.price (divD (divD (mulD p.value a.alloc) dec100) a.price) })

/-- The leftover loop of `Portfolio::rebalance`: find the first asset named
`"USD"`, set its `count` to the leftover and its `value` to
`price * count`, and return the added value (`0` when no such asset
exists, in which case the list is unchanged). -/
def absorb_leftover (leftover : Dec) : List Asset → List Asset × Dec
  | [] => ([], 0)
  | a :: rest =>
    if a.name = CURRENCY then
      ({ a with count := leftover, value := mulD a.price leftover } :: rest,
       mulD a.price leftover)
    else
      let r := absorb_leftover leftover rest
      (a :: r.1, r.2)

/-- `Portfolio::rebalance`.  Panics (crash) when some asset's price is
zero (division by zero in the first loop) or when the recomputed total is
zero (division by zero in `recalc_allocation`). -/
def Portfolio.rebalance (p : Portfolio) : RRes Portfolio :=
  if ∀ a ∈ p.assets, a.price ≠ 0 then
    if sum_values (rebalance_assets1 p) < p.value then
      Portfolio.recalc_allocation
        ⟨(absorb_leftover (p.value - sum_values (rebalance_assets1 p)) (rebalance_assets1 p)).1,
         p.donotsell,
         sum_values (rebalance_assets1 p) +
           (absorb_leftover (p.value - sum_values (rebalance_assets1 p)) (rebalance_assets1 p)).2⟩
    else
      Portfolio.recalc_allocation
        ⟨rebalance_assets1 p, p.donotsell, sum_values (rebalance_assets1 p)⟩
  else .crash

/-- The loop of `Portfolio::add_without_selling`: every asset's count grows
by `(currency.value * alloc / 100) / price` and its value is recomputed;
assets named `"USD"` are then zeroed out. -/
def awos_assets (p : Portfolio) (currency : Asset) : List Asset :=
  p.assets.map (fun a =>
    if a.name = CURRENCY then { a with count := 0, value := 0 }
    else
      { a with
        count := a.count + divD (divD (mulD currency.value a.alloc) dec100) a.price,
        value := mulD a.price
          (a.count + divD (divD (mulD currency.value a.alloc) dec100) a.price) })

/-- `Portfolio::add_without_selling`: errs when there is no `"USD"` asset;
otherwise runs the `awos_assets` loop.  Panics (crash) when some asset's
price is zero (division by zero in the loop), or when the recomputed total
is zero (division by zero in `recalc_allocation`). -/
def Portfolio.add_without_selling (p : Portfolio) : RRes Portfolio :=
  match p.get_currency with
  | none => .err
  | some currency =>
    if ∀ a ∈ p.assets, a.price ≠ 0 then
      Portfolio.recalc_allocation
        ⟨awos_assets p currency, p.donotsell, sum_values (awos_assets p currency)⟩
    else .crash

/-- Prepend an action to the result of the remaining loop iterations
(a failure outcome of the rest of the loop discards the earlier pushes,
exactly as the early return of the Rust loop does). -/
def rres_cons (act : Action) : RRes (List Action) → RRes (List Action)
  | .ok acts => .ok (act :: acts)
  | .err => .err
  | .crash => .crash

/-- The whole-unit amount of a sell action, mirroring the source's
two-step cast `u32::try_from(-diff.to_i32()...?)?`: a signed conversion,
a (release-mode, wrapping) negation, then the unsigned conversion. -/
def sell_amount (d : Dec) : Option Nat :=
  match Dec.to_i32 d with
  | none => none
  | some n => u32_try_from (i32_neg_wrapping n)

/-- The loop of `Portfolio::get_actions`, walking the two asset lists
positionally.  A name mismatch fails the `assert!` (crash); a target list
shorter than the original list hits an out-of-bounds index (crash); target
assets beyond the original list's length are ignored by the loop.
`diff` and `transaction_value` of the source are written inline. -/
def actions_loop : List Asset → List Asset → RRes (List Action)
  | [], _ => .ok []
  | _ :: _, [] => .crash
  | a :: as_, b :: bs =>
    if a.name = b.name then
      if b.count - a.count = 0 then actions_loop as_ bs
      else if 0 < b.count - a.count then
        match Dec.to_u32 (b.count - a.count) with
        | none => .err
        | some amt =>
          rres_cons ⟨.buy, amt, a.name, |mulD (b.count - a.count) a.price|⟩
            (actions_loop as_ bs)
      else
        match sell_amount (b.count - a.count) with
        | none => .err
        | some amt =>
          rres_cons ⟨.sell, amt, a.name, |mulD (b.count - a.count) a.price|⟩
            (actions_loop as_ bs)
    else .crash

/-- `Portfolio::get_actions`. -/
def Portfolio.get_actions (p target : Portfolio) : RRes (List Action) :=
  actions_loop p.assets target.assets

/-- The conversion loop of `Portfolio::get_display_data`: one
`(name, alloc as u32, widened to u64)` pair per asset, failing (err) when
some `alloc` is not representable as a `u32`. -/
def display_loop : List Asset → Option (List (String × Nat))
  | [] => some []
  | a :: rest =>
    match Dec.to_u32 a.alloc with
    | none => none
    | some n => (display_loop rest).map (fun l => (a.name, n) :: l)

/-- `Portfolio::get_display_data`: recalculates allocations, then converts
them (in Rust this also stores the recalculated allocations back into
`self`; only the returned data is modelled). -/
def Portfolio.get_display_data (p : Portfolio) : RRes (List (String × Nat)) :=
  match p.recalc_allocation with
  | .ok q =>
    match display_loop q.assets with
    | none => .err
    | some l => .ok l
  | .err => .err
  | .crash => .crash

/-- One parsed asset record of the input file: `{name, price, count, alloc}`
(the `value` field is never supplied by input). -/
structure AssetIn where
  name : String
  price : Dec
  count : Dec
  alloc : Dec
deriving DecidableEq, Repr

/-- The validation errors of `load_portfolio_from_file` (the upstream
file-read and JSON parse errors are outside the embedded core). -/
inductive LoadError where
  | invalidAllocation (sum : Dec)
  | missingCurrency
deriving DecidableEq, Repr

/-- Result of loading a portfolio. -/
inductive LoadResult where
  | ok (p : Portfolio)
  | error (e : LoadError)
deriving DecidableEq, Repr

/-- `load_portfolio_from_file`, modelled from the point where the input has
been comment-stripped and parsed into the `Portfolio` shape (file I/O and
JSON parsing live in external crates): deserialization zero-initializes the
skipped `value` fields and defaults `donotsell` to `false` when absent;
then the allocation-sum check, the currency check, and
`calculate_asset_values` run in this order. -/
def parse_portfolio (input : List AssetIn) (donotsell : Bool) : Portfolio :=
  ⟨input.map (fun a => ⟨a.name, a.price, a.count, a.alloc, 0⟩), donotsell, 0⟩

/-- The validation and value-computation steps of
`load_portfolio_from_file`, in the source's order. -/
def load_portfolio (input : List AssetIn) (donotsell : Bool) : LoadResult :=
  if ¬ (parse_portfolio input donotsell).is_target_allocation_sane then
    .error (.invalidAllocation (parse_portfolio input donotsell).get_allocation_sum)
  else if ¬ (parse_portfolio input donotsell).has_currency then .error .missingCurrency
  else .ok (parse_portfolio input donotsell).calculate_asset_values

/-- Whether loading succeeded. -/
def LoadResult.isOkB : LoadResult → Bool
  | .ok _ => true
  | .error _ => false

/-- The per-asset invariant of the spec's data model: each asset's `value`
field is its price times its count. -/
def asset_inv (p : Portfolio) : Prop :=
  ∀ a ∈ p.assets, a.value = mulD a.price a.count

/-- The portfolio-level invariant of the spec's data model: the
portfolio's `value` field is the sum of its assets' `value` fields. -/
def sum_inv (p : Portfolio) : Prop :=
  p.value = sum_values p.assets

/-- Positional matching of two asset lists, as `get_actions` requires it:
the original list is no longer than the target list and names agree at
every index of the original list. -/
def names_matchB : List Asset → List Asset → Bool
  | [], _ => true
  | _ :: _, [] => false
  | a :: as_, b :: bs => a.name == b.name && names_matchB as_ bs

/-- Modelled from the claims on `get_actions` (C6/C10): per positional
pair, `diff = target.count - original.count`; a zero diff emits nothing;
otherwise the action's direction follows the sign of `diff`, its amount is
`|diff|` truncated toward zero, and its transaction value is
`|diff * original.price|` computed from the untruncated diff. -/
def actions_spec : List Asset → List Asset → List Action
  | a :: as_, b :: bs =>
    if b.count - a.count = 0 then actions_spec as_ bs
    else
      (⟨if 0 < b.count - a.count then .buy else .sell,
        (truncZ |b.count - a.count|).toNat, a.name,
        |mulD (b.count - a.count) a.price|⟩ : Action)
        :: actions_spec as_ bs
  | _, _ => []

/-! ## Arithmetic lemmas about the decimal model -/

theorem decScale_pos : (0 : Int) < decScale := by norm_num [decScale]

theorem roundAwayDiv_zero_left (b : Int) : roundAwayDiv 0 b = 0 := by
  unfold roundAwayDiv
  have h : (2 * (0 : Int).natAbs + b.natAbs) / (2 * b.natAbs) = 0 := by
    rcases Nat.eq_zero_or_pos b.natAbs with h0 | h0
    · simp [h0]
    · exact Nat.div_eq_of_lt (by omega)
  rw [h]
  split <;> simp

theorem roundAwayDiv_nonneg {a b : Int} (ha : 0 ≤ a) (hb : 0 < b) :
    0 ≤ roundAwayDiv a b := by
  unfold roundAwayDiv
  rw [if_pos (iff_of_true ha hb.le)]
  exact Int.natCast_nonneg _

theorem roundAwayDiv_mul_cancel {k b : Int} (hb : b ≠ 0) :
    roundAwayDiv (k * b) b = k := by
  have hbpos : 0 < b.natAbs := Int.natAbs_pos.mpr hb
  have hq : (2 * (k * b).natAbs + b.natAbs) / (2 * b.natAbs) = k.natAbs := by
    rw [Int.natAbs_mul]
    rw [show 2 * (k.natAbs * b.natAbs) + b.natAbs = b.natAbs * (2 * k.natAbs + 1) by ring]
    rw [show 2 * b.natAbs = b.natAbs * 2 by ring]
    rw [Nat.mul_div_mul_left _ _ hbpos]
    omega
  unfold roundAwayDiv
  rw [hq]
  rcases lt_trichotomy k 0 with hk | hk | hk
  · rcases hb.lt_or_lt with hb' | hb'
    · rw [if_neg (fun hiff =>
        absurd (hiff.mp (mul_pos_of_neg_of_neg hk hb').le) (by omega))]
      omega
    · rw [if_neg (fun hiff =>
        absurd (hiff.mpr hb'.le) (not_le.mpr (mul_neg_of_neg_of_pos hk hb')))]
      omega
  · subst hk
    split <;> simp
  · rcases hb.lt_or_lt with hb' | hb'
    · rw [if_pos (iff_of_false (not_le.mpr (mul_neg_of_pos_of_neg hk hb')) (not_le.mpr hb'))]
      omega
    · rw [if_pos (iff_of_true (mul_nonneg hk.le hb'.le) hb'.le)]
      omega

theorem roundAwayDiv_le_roundAwayDiv {a c b : Int} (ha : 0 ≤ a) (hac : a ≤ c) (hb : 0 < b) :
    roundAwayDiv a b ≤ roundAwayDiv c b := by
  unfold roundAwayDiv
  rw [if_pos (iff_of_true ha hb.le), if_pos (iff_of_true (ha.trans hac) hb.le)]
  exact_mod_cast Nat.div_le_div_right (by omega)

theorem mulD_zero_right (x : Dec) : mulD x 0 = 0 := by
  unfold mulD
  rw [mul_zero]
  exact roundAwayDiv_zero_left _

theorem mulD_scale_left (x : Dec) : mulD decScale x = x := by
  unfold mulD
  rw [mul_comm]
  exact roundAwayDiv_mul_cancel decScale_pos.ne.symm

theorem mulD_dec100 (x : Dec) : mulD x dec100 = 100 * x := by
  unfold mulD dec100
  rw [show x * (100 * decScale) = 100 * x * decScale by ring]
  exact roundAwayDiv_mul_cancel decScale_pos.ne.symm

theorem mulD_nonneg {x y : Dec} (hx : 0 ≤ x) (hy : 0 ≤ y) : 0 ≤ mulD x y :=
  roundAwayDiv_nonneg (mul_nonneg hx hy) decScale_pos

theorem mulD_mono_right {x y z : Dec} (hx : 0 ≤ x) (hy : 0 ≤ y) (hyz : y ≤ z) :
    mulD x y ≤ mulD x z :=
  roundAwayDiv_le_roundAwayDiv (mul_nonneg hx hy) (mul_le_mul_of_nonneg_left hyz hx)
    decScale_pos

theorem le_mulD_of_scale_le {pr l : Dec} (hp : decScale ≤ pr) (hl : 0 ≤ l) :
    l ≤ mulD pr l := by
  have h1 : mulD decScale l ≤ mulD pr l :=
    roundAwayDiv_le_roundAwayDiv (mul_nonneg decScale_pos.le hl)
      (mul_le_mul_of_nonneg_right hp hl) decScale_pos
  rwa [mulD_scale_left] at h1

theorem divD_nonneg {x y : Dec} (hx : 0 ≤ x) (hy : 0 < y) : 0 ≤ divD x y :=
  roundAwayDiv_nonneg (mul_nonneg hx decScale_pos.le) hy

theorem divD_le_scale {x y : Dec} (hx : 0 ≤ x) (hxy : x ≤ y) (hy : 0 < y) :
    divD x y ≤ decScale := by
  have h1 : roundAwayDiv (x * decScale) y ≤ roundAwayDiv (y * decScale) y :=
    roundAwayDiv_le_roundAwayDiv (mul_nonneg hx decScale_pos.le)
      (mul_le_mul_of_nonneg_right hxy decScale_pos.le) hy
  have h2 : roundAwayDiv (y * decScale) y = decScale := by
    rw [mul_comm]
    exact roundAwayDiv_mul_cancel hy.ne.symm
  exact h1.trans_eq h2

/-! ## Lemmas about asset lists and the engine's loops -/

theorem sum_values_nil : sum_values [] = 0 := rfl

theorem sum_values_cons (a : Asset) (l : List Asset) :
    sum_values (a :: l) = a.value + sum_values l := by
  simp [sum_values]

theorem sum_values_nonneg {l : List Asset} (h : ∀ a ∈ l, 0 ≤ a.value) :
    0 ≤ sum_values l := by
  induction l with
  | nil => simp [sum_values]
  | cons a t ih =>
    have h1 := h a (by simp)
    have h2 : 0 ≤ sum_values t := ih (fun b hb => h b (by simp [hb]))
    rw [sum_values_cons]
    exact add_nonneg h1 h2

theorem sum_values_pos {l : List Asset} (h : ∀ a ∈ l, 0 ≤ a.value)
    (hex : ∃ a ∈ l, 0 < a.value) : 0 < sum_values l := by
  induction l with
  | nil => simp at hex
  | cons a t ih =>
    have h1 := h a (by simp)
    rw [sum_values_cons]
    rcases hex with ⟨b, hb, hbv⟩
    rcases List.mem_cons.mp hb with rfl | hbt
    · have h2 : 0 ≤ sum_values t := sum_values_nonneg (fun c hc => h c (by simp [hc]))
      exact add_pos_of_pos_of_nonneg hbv h2
    · have h2 : 0 < sum_values t :=
        ih (fun c hc => h c (by simp [hc])) ⟨b, hbt, hbv⟩
      exact add_pos_of_nonneg_of_pos h1 h2

theorem value_le_sum_values {l : List Asset} (h : ∀ a ∈ l, 0 ≤ a.value)
    {a : Asset} (ha : a ∈ l) : a.value ≤ sum_values l := by
  induction l with
  | nil => simp at ha
  | cons b t ih =>
    rw [sum_values_cons]
    rcases List.mem_cons.mp ha with rfl | hat
    · have h2 : 0 ≤ sum_values t := sum_values_nonneg (fun c hc => h c (by simp [hc]))
      exact le_add_of_nonneg_right h2
    · have h1 := h b (by simp)
      have h2 := ih (fun c hc => h c (by simp [hc])) hat
      exact h2.trans (le_add_of_nonneg_left h1)

theorem map_proj_set_alloc {β : Type} (f : Asset → β)
    (hf : ∀ (a : Asset) (x : Dec), f { a with alloc := x } = f a)
    (l : List Asset) (g : Asset → Dec) :
    (l.map (fun a => { a with alloc := g a })).map f = l.map f := by
  rw [List.map_map]
  exact List.map_congr_left (fun a _ => hf a (g a))

/-- Eliminating a successful `recalc_allocation`. -/
theorem recalc_ok_elim {p q : Portfolio} (h : p.recalc_allocation = .ok q) :
    p.value ≠ 0 ∧
      q = { p with assets :=
        p.assets.map (fun a => { a with alloc := mulD (divD a.value p.value) dec100 }) } := by
  by_cases hv : p.value = 0
  · rw [Portfolio.recalc_allocation, if_pos hv] at h
    exact absurd h (by simp)
  · rw [Portfolio.recalc_allocation, if_neg hv] at h
    injection h with h'
    exact ⟨hv, h'.symm⟩

theorem recalc_ok_of_ne_zero {p : Portfolio} (h : p.value ≠ 0) :
    p.recalc_allocation =
      .ok { p with assets :=
        p.assets.map (fun a => { a with alloc := mulD (divD a.value p.value) dec100 }) } := by
  rw [Portfolio.recalc_allocation, if_neg h]

theorem recalc_crash_iff {p : Portfolio} :
    p.recalc_allocation = .crash ↔ p.value = 0 := by
  rw [Portfolio.recalc_allocation]
  split <;> simp_all

/-- `absorb_leftover` when no asset is the currency: nothing changes. -/
theorem absorb_of_no_currency {lv : Dec} {l : List Asset}
    (h : ∀ a ∈ l, a.name ≠ CURRENCY) : absorb_leftover lv l = (l, 0) := by
  induction l with
  | nil => rfl
  | cons a t ih =>
    have h1 : a.name ≠ CURRENCY := h a (by simp)
    have h2 := ih (fun b hb => h b (by simp [hb]))
    simp only [absorb_leftover, if_neg h1, h2]

/-- `absorb_leftover` when some asset is the currency: the first such asset
is overwritten with the leftover, everything else is unchanged, and the
snd component is the overwriting asset's new value. -/
theorem absorb_char (lv : Dec) {l : List Asset} (h : ∃ a ∈ l, a.name = CURRENCY) :
    ∃ l1 a l2, l = l1 ++ a :: l2 ∧ (∀ b ∈ l1, b.name ≠ CURRENCY) ∧ a.name = CURRENCY ∧
      absorb_leftover lv l =
        (l1 ++ { a with count := lv, value := mulD a.price lv } :: l2, mulD a.price lv) := by
  induction l with
  | nil => simp at h
  | cons a t ih =>
    by_cases ha : a.name = CURRENCY
    · exact ⟨[], a, t, by simp, by simp, ha, by simp [absorb_leftover, ha]⟩
    · have h' : ∃ b ∈ t, b.name = CURRENCY := by
        rcases h with ⟨b, hb, hbn⟩
        rcases List.mem_cons.mp hb with rfl | hbt
        · exact absurd hbn ha
        · exact ⟨b, hbt, hbn⟩
      obtain ⟨l1, c, l2, heq, hl1, hc, habs⟩ := ih h'
      refine ⟨a :: l1, c, l2, by simp [heq], ?_, hc, ?_⟩
      · intro b hb
        rcases List.mem_cons.mp hb with rfl | hbl1
        · exact ha
        · exact hl1 b hbl1
      · simp only [absorb_leftover, if_neg ha, habs]
        simp

/-- `absorb_leftover` preserves the per-asset `value = price * count`
invariant. -/
theorem absorb_fst_inv {lv : Dec} {l : List Asset}
    (h : ∀ a ∈ l, a.value = mulD a.price a.count) :
    ∀ a ∈ (absorb_leftover lv l).1, a.value = mulD a.price a.count := by
  induction l with
  | nil => simp [absorb_leftover]
  | cons a t ih =>
    by_cases ha : a.name = CURRENCY
    · simp only [absorb_leftover, if_pos ha]
      intro b hb
      rcases List.mem_cons.mp hb with rfl | hbt
      · rfl
      · exact h b (by simp [hbt])
    · simp only [absorb_leftover, if_neg ha]
      intro b hb
      rcases List.mem_cons.mp hb with rfl | hbt
      · exact h b (by simp)
      · exact ih (fun c hc => h c (by simp [hc])) b hbt

/-- `find?` over a decomposition whose prefix has no match. -/
theorem find?_decomp {pB : Asset → Bool} {l1 l2 : List Asset} {a : Asset}
    (h1 : ∀ b ∈ l1, pB b = false) (h2 : pB a = true) :
    (l1 ++ a :: l2).find? pB = some a := by
  induction l1 with
  | nil => simp [List.find?, h2]
  | cons b t ih =>
    have hb := h1 b (by simp)
    simp only [List.cons_append, List.find?, hb]
    exact ih (fun c hc => h1 c (by simp [hc]))

/-- Finding the currency in a mapped list, when the map preserves names. -/
theorem find?_currency_map {l : List Asset} {f : Asset → Asset}
    (hname : ∀ a, (f a).name = a.name) :
    (l.map f).find? (fun a => a.name = CURRENCY) =
      (l.find? (fun a => a.name = CURRENCY)).map f := by
  rw [List.find?_map]
  simp only [Function.comp_def, hname]

theorem truncZ_neg (d : Dec) : truncZ (-d) = -truncZ d := by
  unfold truncZ
  rcases lt_trichotomy d 0 with h | h | h
  · rw [if_pos (by linarith), if_neg (by linarith)]
    simp
  · subst h
    simp
  · rw [if_neg (by linarith), if_pos h.le]
    simp

theorem rres_cons_ne_crash {act : Action} {r : RRes (List Action)} (h : r ≠ .crash) :
    rres_cons act r ≠ .crash := by
  cases r <;> simp_all [rres_cons]

theorem rres_cons_ok_elim {act : Action} {r : RRes (List Action)} {acts : List Action}
    (h : rres_cons act r = .ok acts) : ∃ ts, r = .ok ts ∧ acts = act :: ts := by
  cases r <;> simp_all [rres_cons]

theorem rres_cons_err {act : Action} {r : RRes (List Action)} (h : r = .err) :
    rres_cons act r = .err := by
  subst h
  rfl

/-- `to_u32` fails exactly on the out-of-range side for a positive diff. -/
theorem to_u32_eq_none_of_big {d : Dec} (hd : 0 < d) (h : 2 ^ 32 ≤ truncZ d) :
    Dec.to_u32 d = none := by
  unfold Dec.to_u32
  rw [if_neg (by linarith), if_neg (by linarith)]

theorem to_u32_some_elim {d : Dec} {amt : Nat} (hd : 0 < d) (h : Dec.to_u32 d = some amt) :
    amt = (truncZ |d|).toNat := by
  unfold Dec.to_u32 at h
  rw [if_neg (by linarith)] at h
  by_cases hlt : truncZ d < 2 ^ 32
  · rw [if_pos hlt] at h
    injection h with h'
    rw [← h', abs_of_pos hd]
  · rw [if_neg hlt] at h
    exact absurd h (by simp)

/-- The two-step sell cast fails whenever the truncated diff is at or
below `i32::MIN` (below: the signed conversion fails; exactly at: the
wrapped negation stays negative and the unsigned conversion fails). -/
theorem sell_amount_eq_none_of_small {d : Dec} (h : truncZ d ≤ -(2 ^ 31)) :
    sell_amount d = none := by
  unfold sell_amount
  by_cases hmin : truncZ d = -(2 ^ 31)
  · have hi : Dec.to_i32 d = some (-(2 ^ 31)) := by
      unfold Dec.to_i32
      rw [if_pos (by constructor <;> linarith), hmin]
    rw [hi]
    show u32_try_from (i32_neg_wrapping (-(2 ^ 31))) = none
    rw [i32_neg_wrapping, if_pos rfl, u32_try_from,
      if_neg (by intro hc; rcases hc with ⟨hc1, _⟩; omega)]
  · have hi : Dec.to_i32 d = none := by
      unfold Dec.to_i32
      rw [if_neg (by intro hc; exact hmin (le_antisymm h hc.1))]
    rw [hi]

theorem sell_amount_some_elim {d : Dec} {amt : Nat} (hd : d < 0)
    (h : sell_amount d = some amt) : amt = (truncZ |d|).toNat := by
  unfold sell_amount at h
  cases hi : Dec.to_i32 d with
  | none => rw [hi] at h; exact absurd h (by simp)
  | some n =>
    rw [hi] at h
    have h' : u32_try_from (i32_neg_wrapping n) = some amt := h
    have hn : n = truncZ d := by
      unfold Dec.to_i32 at hi
      split at hi
      · injection hi with hi'
        exact hi'.symm
      · exact absurd hi (by simp)
    have hne : n ≠ -(2 ^ 31) := by
      intro hcon
      rw [i32_neg_wrapping, if_pos hcon, u32_try_from,
        if_neg (by intro hc; rcases hc with ⟨hc1, _⟩; omega)] at h'
      exact absurd h' (by simp)
    rw [i32_neg_wrapping, if_neg hne, u32_try_from] at h'
    split at h'
    · injection h' with h2
      rw [← h2, abs_of_neg hd, truncZ_neg, hn]
    · exact absurd h' (by simp)

/-- The action loop never panics on positionally matching lists. -/
theorem actions_loop_ne_crash : ∀ {ao bo : List Asset},
    names_matchB ao bo = true → actions_loop ao bo ≠ .crash := by
  intro ao
  induction ao with
  | nil =>
    intro bo h
    simp [actions_loop]
  | cons a t ih =>
    intro bo h
    cases bo with
    | nil => simp [names_matchB] at h
    | cons b bs =>
      simp only [names_matchB, Bool.and_eq_true, beq_iff_eq] at h
      obtain ⟨hn, hm⟩ := h
      have iht : actions_loop t bs ≠ .crash := ih hm
      rw [actions_loop, if_pos hn]
      by_cases hd : b.count - a.count = 0
      · rw [if_pos hd]
        exact iht
      · rw [if_neg hd]
        by_cases hdp : 0 < b.count - a.count
        · rw [if_pos hdp]
          cases hu : Dec.to_u32 (b.count - a.count) with
          | none => simp
          | some amt => exact rres_cons_ne_crash iht
        · rw [if_neg hdp]
          cases hs : sell_amount (b.count - a.count) with
          | none => simp
          | some amt => exact rres_cons_ne_crash iht

/-- A successful action loop produces exactly the actions described by the
claims: truncated-magnitude amounts and untruncated transaction values. -/
theorem actions_loop_ok_spec : ∀ {ao bo : List Asset} {acts : List Action},
    actions_loop ao bo = .ok acts → acts = actions_spec ao bo := by
  intro ao
  induction ao with
  | nil =>
    intro bo acts h
    cases bo <;> simp_all [actions_loop, actions_spec]
  | cons a t ih =>
    intro bo acts h
    cases bo with
    | nil => simp [actions_loop] at h
    | cons b bs =>
      by_cases hn : a.name = b.name
      · rw [actions_loop, if_pos hn] at h
        by_cases hd : b.count - a.count = 0
        · rw [if_pos hd] at h
          rw [actions_spec, if_pos hd]
          exact ih h
        · rw [if_neg hd] at h
          rw [actions_spec, if_neg hd]
          by_cases hdp : 0 < b.count - a.count
          · rw [if_pos hdp] at h
            cases hu : Dec.to_u32 (b.count - a.count) with
            | none => rw [hu] at h; exact absurd h (by simp)
            | some amt =>
              rw [hu] at h
              obtain ⟨ts, hts, rfl⟩ := rres_cons_ok_elim h
              rw [if_pos hdp, to_u32_some_elim hdp hu, ih hts]
          · rw [if_neg hdp] at h
            cases hs : sell_amount (b.count - a.count) with
            | none => rw [hs] at h; exact absurd h (by simp)
            | some amt =>
              rw [hs] at h
              obtain ⟨ts, hts, rfl⟩ := rres_cons_ok_elim h
              have hdneg : b.count - a.count < 0 := by
                rcases lt_trichotomy (b.count - a.count) 0 with h' | h' | h'
                · exact h'
                · exact absurd h' hd
                · exact absurd h' hdp
              rw [if_neg hdp, sell_amount_some_elim hdneg hs, ih hts]
      · rw [actions_loop, if_neg hn] at h
        exact absurd h (by simp)

/-- When some positional diff is out of the representable range
(above `u32::MAX` for a buy, at or below `i32::MIN` for a sell), the
action loop returns the modelled error. -/
theorem actions_loop_err_of_bad : ∀ {ao bo : List Asset},
    names_matchB ao bo = true →
    (∃ pr ∈ ao.zip bo,
      (0 < pr.2.count - pr.1.count ∧ 2 ^ 32 ≤ truncZ (pr.2.count - pr.1.count)) ∨
      (pr.2.count - pr.1.count < 0 ∧ truncZ (pr.2.count - pr.1.count) ≤ -(2 ^ 31))) →
    actions_loop ao bo = .err := by
  intro ao
  induction ao with
  | nil =>
    intro bo h hbad
    simp at hbad
  | cons a t ih =>
    intro bo h hbad
    cases bo with
    | nil => simp [names_matchB] at h
    | cons b bs =>
      simp only [names_matchB, Bool.and_eq_true, beq_iff_eq] at h
      obtain ⟨hn, hm⟩ := h
      rw [actions_loop, if_pos hn]
      rcases hbad with ⟨pr, hpr, hcond⟩
      rw [List.zip_cons_cons] at hpr
      rcases List.mem_cons.mp hpr with rfl | hprt
      · rcases hcond with ⟨hdp, hrange⟩ | ⟨hdn, hrange⟩
        · rw [if_neg (by intro hc; rw [hc] at hdp; exact absurd hdp (by simp)), if_pos hdp,
            to_u32_eq_none_of_big hdp hrange]
        · rw [if_neg (by intro hc; rw [hc] at hdn; exact absurd hdn (by simp)),
            if_neg (by linarith), sell_amount_eq_none_of_small hrange]
      · have iht : actions_loop t bs = .err := ih hm ⟨pr, hprt, hcond⟩
        by_cases hd : b.count - a.count = 0
        · rw [if_pos hd]
          exact iht
        · rw [if_neg hd]
          by_cases hdp : 0 < b.count - a.count
          · rw [if_pos hdp]
            cases hu : Dec.to_u32 (b.count - a.count) with
            | none => rfl
            | some amt => exact rres_cons_err iht
          · rw [if_neg hdp]
            cases hs : sell_amount (b.count - a.count) with
            | none => rfl
            | some amt => exact rres_cons_err iht

/-! ## Elimination lemmas for the engine operations -/

theorem rebalance_ok_elim {p t : Portfolio} (h : p.rebalance = .ok t) :
    (∀ a ∈ p.assets, a.price ≠ 0) ∧
    (¬ sum_values (rebalance_assets1 p) < p.value →
      Portfolio.recalc_allocation
        ⟨rebalance_assets1 p, p.donotsell, sum_values (rebalance_assets1 p)⟩ = .ok t) ∧
    (sum_values (rebalance_assets1 p) < p.value →
      Portfolio.recalc_allocation
        ⟨(absorb_leftover (p.value - sum_values (rebalance_assets1 p)) (rebalance_assets1 p)).1,
         p.donotsell,
         sum_values (rebalance_assets1 p) +
           (absorb_leftover (p.value - sum_values (rebalance_assets1 p))
             (rebalance_assets1 p)).2⟩ = .ok t) := by
  rw [Portfolio.rebalance] at h
  by_cases hp : ∀ a ∈ p.assets, a.price ≠ 0
  · rw [if_pos hp] at h
    by_cases hv : sum_values (rebalance_assets1 p) < p.value
    · rw [if_pos hv] at h
      exact ⟨hp, fun hc => absurd hv hc, fun _ => h⟩
    · rw [if_neg hv] at h
      exact ⟨hp, fun _ => h, fun hc => absurd hc hv⟩
  · rw [if_neg hp] at h
    exact absurd h (by simp)

theorem awos_ok_elim {p t : Portfolio} (h : p.add_without_selling = .ok t) :
    ∃ c, p.get_currency = some c ∧ (∀ a ∈ p.assets, a.price ≠ 0) ∧
      Portfolio.recalc_allocation
        ⟨awos_assets p c, p.donotsell, sum_values (awos_assets p c)⟩ = .ok t := by
  rw [Portfolio.add_without_selling] at h
  cases hc : p.get_currency with
  | none =>
    rw [hc] at h
    exact absurd h (by simp)
  | some c =>
    rw [hc] at h
    have h' : (if ∀ a ∈ p.assets, a.price ≠ 0 then
        Portfolio.recalc_allocation
          ⟨awos_assets p c, p.donotsell, sum_values (awos_assets p c)⟩
      else .crash) = .ok t := h
    by_cases hp : ∀ a ∈ p.assets, a.price ≠ 0
    · rw [if_pos hp] at h'
      exact ⟨c, rfl, hp, h'⟩
    · rw [if_neg hp] at h'
      exact absurd h' (by simp)

theorem parse_alloc_sum (input : List AssetIn) (d : Bool) :
    (parse_portfolio input d).get_allocation_sum = (input.map AssetIn.alloc).sum := by
  simp only [parse_portfolio, Portfolio.get_allocation_sum, List.map_map]
  rfl

theorem parse_has_currency (input : List AssetIn) (d : Bool) :
    (parse_portfolio input d).has_currency = true ↔ ∃ a ∈ input, a.name = CURRENCY := by
  simp [parse_portfolio, Portfolio.has_currency, Portfolio.get_currency,
    List.find?_isSome, List.mem_map]

theorem parse_sane_iff (input : List AssetIn) (d : Bool) :
    (parse_portfolio input d).is_target_allocation_sane = true ↔
      (input.map AssetIn.alloc).sum = dec100 := by
  rw [Portfolio.is_target_allocation_sane, parse_alloc_sum]
  simp

/-- Master characterization of `load_portfolio`: the allocation-sum check
(carrying the actual sum), then the currency-presence check, then the
value computation. -/
theorem load_eq_cases (input : List AssetIn) (d : Bool) :
    load_portfolio input d =
      if ¬ (input.map AssetIn.alloc).sum = dec100 then
        .error (.invalidAllocation ((input.map AssetIn.alloc).sum))
      else if ¬ ∃ a ∈ input, a.name = CURRENCY then .error .missingCurrency
      else .ok (parse_portfolio input d).calculate_asset_values := by
  rw [load_portfolio]
  by_cases hsum : (input.map AssetIn.alloc).sum = dec100
  · rw [if_neg (by rw [parse_sane_iff]; exact not_not_intro hsum),
      if_neg (not_not_intro hsum)]
    by_cases hcur : ∃ a ∈ input, a.name = CURRENCY
    · rw [if_neg (by rw [parse_has_currency]; exact not_not_intro hcur),
        if_neg (not_not_intro hcur)]
    · rw [if_pos (by rw [parse_has_currency]; exact hcur), if_pos hcur]
  · rw [if_pos (by rw [parse_sane_iff]; exact hsum), if_pos hsum, parse_alloc_sum]

/-! ## Concrete portfolios used by the claim theorems

`exSpec` is the worked example of the specification; the others are
validated inputs exercising corner cases.  All decimal literals are given
in the scaled representation (`x * decScale` is the decimal `x`). -/

/-- The spec's worked example: `USD` at price 1, count 500, alloc 50;
`STK` at price 10, count 0, alloc 50. -/
def exSpec : List AssetIn :=
  [⟨"USD", decScale, 500 * decScale, 50 * decScale⟩,
   ⟨"STK", 10 * decScale, 0, 50 * decScale⟩]

/-- The loaded form of `exSpec`. -/
def pSpec : Portfolio :=
  ⟨[⟨"USD", decScale, 500 * decScale, 50 * decScale, 500 * decScale⟩,
    ⟨"STK", 10 * decScale, 0, 50 * decScale, 0⟩], false, 500 * decScale⟩

/-- Like the spec example but holding one `STK` share, so that some
non-currency asset has positive value. -/
def exHold : List AssetIn :=
  [⟨"USD", decScale, 500 * decScale, 50 * decScale⟩,
   ⟨"STK", 10 * decScale, decScale, 50 * decScale⟩]

/-- The loaded form of `exHold`. -/
def pHold : Portfolio :=
  ⟨[⟨"USD", decScale, 500 * decScale, 50 * decScale, 500 * decScale⟩,
    ⟨"STK", 10 * decScale, decScale, 50 * decScale, 10 * decScale⟩], false, 510 * decScale⟩

/-- Validated input whose rebalance rounds: total 4, `A` gets
`1 / 3 = 0.333...3` (rounded down after 28 digits), leaving a positive
leftover of `10 ^ -28`. -/
def exRound : List AssetIn :=
  [⟨"USD", decScale, 4 * decScale, 75 * decScale⟩,
   ⟨"A", 3 * decScale, 0, 25 * decScale⟩]

/-- The loaded form of `exRound`. -/
def pRound : Portfolio :=
  ⟨[⟨"USD", decScale, 4 * decScale, 75 * decScale, 4 * decScale⟩,
    ⟨"A", 3 * decScale, 0, 25 * decScale, 0⟩], false, 4 * decScale⟩

/-- `rebalance pRound`: the first loop gives USD count 3 (value 3) and
`A` count `0.333...3` (value `1 - 10 ^ -28`); the leftover `10 ^ -28` then
overwrites the USD count, and the recomputed allocations are 0 and 25. -/
def tRound : Portfolio :=
  ⟨[⟨"USD", decScale, 1, 0, 1⟩,
    ⟨"A", 3 * decScale, 3333333333333333333333333333, 25 * decScale,
      9999999999999999999999999999⟩], false, 4 * decScale⟩

/-- Like `exRound` but the currency's price is 2 (never validated, so the
portfolio still loads). -/
def exRound2 : List AssetIn :=
  [⟨"USD", 2 * decScale, 2 * decScale, 75 * decScale⟩,
   ⟨"A", 3 * decScale, 0, 25 * decScale⟩]

/-- The loaded form of `exRound2`. -/
def pRound2 : Portfolio :=
  ⟨[⟨"USD", 2 * decScale, 2 * decScale, 75 * decScale, 4 * decScale⟩,
    ⟨"A", 3 * decScale, 0, 25 * decScale, 0⟩], false, 4 * decScale⟩

/-- `rebalance pRound2`: the leftover `10 ^ -28` is absorbed at price 2,
so the final total is `4 + 10 ^ -28`, not 4. -/
def tRound2 : Portfolio :=
  ⟨[⟨"USD", 2 * decScale, 1, 0, 2⟩,
    ⟨"A", 3 * decScale, 3333333333333333333333333333, 25 * decScale,
      9999999999999999999999999999⟩], false, 4 * decScale + 1⟩

/-- Validated input with a negative allocation (the sum is still exactly
100, which is all loading checks). -/
def exNeg : List AssetIn :=
  [⟨"USD", decScale, 100 * decScale, 150 * decScale⟩,
   ⟨"A", decScale, 10 * decScale, -(50 * decScale)⟩]

/-- The loaded form of `exNeg`. -/
def pNeg : Portfolio :=
  ⟨[⟨"USD", decScale, 100 * decScale, 150 * decScale, 100 * decScale⟩,
    ⟨"A", decScale, 10 * decScale, -(50 * decScale), 10 * decScale⟩], false, 110 * decScale⟩

/-- `add_without_selling pNeg`: the negative allocation makes the `A`
count drop from 10 to -40. -/
def tNeg : Portfolio :=
  ⟨[⟨"USD", decScale, 0, 0, 0⟩,
    ⟨"A", decScale, -(40 * decScale), 100 * decScale, -(40 * decScale)⟩],
   false, -(40 * decScale)⟩

/-- Validated input whose total value is zero (a zero count is never
validated). -/
def exZero : List AssetIn := [⟨"USD", decScale, 0, 100 * decScale⟩]

/-- The loaded form of `exZero`. -/
def pZero : Portfolio := ⟨[⟨"USD", decScale, 0, 100 * decScale, 0⟩], false, 0⟩

/-- Input with two assets named `"USD"` (allocation sum is exactly 100). -/
def exTwoUSD : List AssetIn :=
  [⟨"USD", decScale, decScale, 50 * decScale⟩,
   ⟨"USD", decScale, decScale, 50 * decScale⟩]

/-- Input with a negative count, a zero price, a negative allocation and
an allocation above 100 — all accepted by loading. -/
def exWild : List AssetIn :=
  [⟨"USD", decScale, -decScale, 150 * decScale⟩,
   ⟨"A", 0, -(2 * decScale), -(50 * decScale)⟩]

/-- A single original asset for the action diff: price 10, count 0. -/
def aFrac : Asset := ⟨"A", 10 * decScale, 0, 100 * decScale, 0⟩

/-- Matching target asset with count 2.5: the diff is fractional. -/
def bFrac : Asset :=
  ⟨"A", 10 * decScale, 25 * decScale / 10, 100 * decScale, 0⟩

/-- A single original asset for an out-of-range buy diff. -/
def aBig : Asset := ⟨"B", decScale, 0, 100 * decScale, 0⟩

/-- Matching target asset with count `2 ^ 32`, beyond `u32::MAX`. -/
def bBig : Asset := ⟨"B", decScale, 4294967296 * decScale, 100 * decScale, 0⟩

/-! ## Shared consequences of the load characterization -/

theorem load_isOkB_iff (input : List AssetIn) (d : Bool) :
    (load_portfolio input d).isOkB = true ↔
      ((input.map AssetIn.alloc).sum = dec100 ∧ ∃ a ∈ input, a.name = CURRENCY) := by
  rw [load_eq_cases]
  by_cases hsum : (input.map AssetIn.alloc).sum = dec100
  · rw [if_neg (not_not_intro hsum)]
    by_cases hcur : ∃ a ∈ input, a.name = CURRENCY
    · rw [if_neg (not_not_intro hcur)]
      simp [LoadResult.isOkB, hsum, hcur]
    · rw [if_pos hcur]
      simp [LoadResult.isOkB, hsum, hcur]
  · rw [if_pos hsum]
    simp [LoadResult.isOkB, hsum]

theorem load_missing_iff (input : List AssetIn) (d : Bool) :
    load_portfolio input d = .error .missingCurrency ↔
      ((input.map AssetIn.alloc).sum = dec100 ∧ ¬ ∃ a ∈ input, a.name = CURRENCY) := by
  rw [load_eq_cases]
  by_cases hsum : (input.map AssetIn.alloc).sum = dec100
  · rw [if_neg (not_not_intro hsum)]
    by_cases hcur : ∃ a ∈ input, a.name = CURRENCY
    · rw [if_neg (not_not_intro hcur)]
      simp [hsum, hcur]
    · rw [if_pos hcur]
      simp [hsum, hcur]
  · rw [if_pos hsum]
    simp [hsum]

/-! ## Claim C7 -/

/-- C7 (confirmed): `load_portfolio_from_file` fails with an
`InvalidAllocation` error carrying the actual sum if and only if the
parsed allocations do not sum to exactly 100 — exact decimal equality with
no tolerance; in particular sums of 99.9 and 100.1 are rejected (with the
actual sum in the error). -/
theorem C7_invalid_allocation_exact :
    (∀ (input : List AssetIn) (d : Bool),
      (load_portfolio input d =
          .error (.invalidAllocation ((input.map AssetIn.alloc).sum)) ↔
        (input.map AssetIn.alloc).sum ≠ dec100) ∧
      ∀ s, load_portfolio input d = .error (.invalidAllocation s) →
        s = (input.map AssetIn.alloc).sum ∧ (input.map AssetIn.alloc).sum ≠ dec100) ∧
    load_portfolio [⟨"USD", decScale, decScale, 999 * decScale / 10⟩] false =
      .error (.invalidAllocation (999 * decScale / 10)) ∧
    load_portfolio [⟨"USD", decScale, decScale, 1001 * decScale / 10⟩] false =
      .error (.invalidAllocation (1001 * decScale / 10)) := by
  refine ⟨fun input d => ?_, by decide, by decide⟩
  rw [load_eq_cases]
  by_cases hsum : (input.map AssetIn.alloc).sum = dec100
  · rw [if_neg (not_not_intro hsum)]
    refine ⟨⟨?_, fun h => absurd hsum h⟩, ?_⟩
    · intro h
      split at h <;> exact absurd h (by simp)
    · intro s h
      split at h <;> exact absurd h (by simp)
  · rw [if_pos hsum]
    refine ⟨⟨fun _ => hsum, fun _ => rfl⟩, ?_⟩
    intro s h
    injection h with h1
    injection h1 with h2
    exact ⟨h2.symm, hsum⟩

/-- Witness for C7: the 99.9 input instantiating the sum-carrying part. -/
theorem C7_witness :
    (999 * decScale / 10 : Dec) =
        ([⟨"USD", decScale, decScale, 999 * decScale / 10⟩].map AssetIn.alloc).sum ∧
      ([(⟨"USD", decScale, decScale, 999 * decScale / 10⟩ : AssetIn)].map AssetIn.alloc).sum ≠
        dec100 :=
  (C7_invalid_allocation_exact.1 [⟨"USD", decScale, decScale, 999 * decScale / 10⟩] false).2
    (999 * decScale / 10) (by decide)

/-! ## Claim C8 -/

/-- C8 counterexample: an input with two assets named `"USD"` loads
successfully, although the claim requires loading to fail with
`MissingCurrency` whenever more than one asset is named `"USD"`. -/
theorem C8_cex_two_usd_load_succeeds :
    (exTwoUSD.filter (fun a => a.name == CURRENCY)).length = 2 ∧
    (load_portfolio exTwoUSD false).isOkB = true := by decide

/-- C8 (amended): loading accepts a portfolio (with a valid allocation
sum) when at least one asset is named `"USD"`, and fails with
`MissingCurrency` exactly when no asset is named `"USD"`; uniqueness is
not checked. -/
theorem C8_amended_missing_currency :
    ∀ (input : List AssetIn) (d : Bool),
      (load_portfolio input d = .error .missingCurrency ↔
        ((input.map AssetIn.alloc).sum = dec100 ∧ ¬ ∃ a ∈ input, a.name = CURRENCY)) ∧
      ((load_portfolio input d).isOkB = true ↔
        ((input.map AssetIn.alloc).sum = dec100 ∧ ∃ a ∈ input, a.name = CURRENCY)) :=
  fun input d => ⟨load_missing_iff input d, load_isOkB_iff input d⟩

/-! ## Claim C9 -/

/-- C9 (confirmed): on parsed input, loading succeeds if and only if the
allocations sum to exactly 100 and some asset is named `"USD"`; nothing
else is validated — the concrete input `exWild` has a negative allocation,
an allocation above 100, a zero price and negative counts, and still
loads. -/
theorem C9_load_success_iff :
    (∀ (input : List AssetIn) (d : Bool),
      (load_portfolio input d).isOkB = true ↔
        ((input.map AssetIn.alloc).sum = dec100 ∧ ∃ a ∈ input, a.name = CURRENCY)) ∧
    ((load_portfolio exWild false).isOkB = true ∧
      (∃ a ∈ exWild, a.alloc < 0) ∧ (∃ a ∈ exWild, 100 * decScale < a.alloc) ∧
      (∃ a ∈ exWild, a.price = 0) ∧ (∃ a ∈ exWild, a.count < 0)) :=
  ⟨fun input d => load_isOkB_iff input d, by decide⟩

/-! ## Claim C6 -/

/-- C6 counterexample: the positional count difference `2.5` is not
representable as a non-negative 32-bit integer (it is not an integer at
all — its scaled representation is not a multiple of the scale), yet
`get_actions` does not return an error: it silently truncates the
difference into the Buy amount 2. -/
theorem C6_cex_fractional_diff_not_error :
    (bFrac.count - aFrac.count) % decScale ≠ 0 ∧
    Portfolio.get_actions ⟨[aFrac], false, 0⟩ ⟨[bFrac], false, 0⟩ =
      .ok [⟨.buy, 2, "A", 25 * decScale⟩] := by decide

/-- C6 (amended): for positionally matching portfolios, whenever some
count difference is out of the reporting range — truncating above
`u32::MAX` for a positive diff, or at or below `i32::MIN` for a negative
diff — `get_actions` returns an error; and every successfully returned
action carries the exactly truncated magnitude (never a wrapped value),
per `actions_spec`. -/
theorem C6_amended_out_of_range_errors :
    ∀ p t : Portfolio, names_matchB p.assets t.assets = true →
      ((∃ pr ∈ p.assets.zip t.assets,
          (0 < pr.2.count - pr.1.count ∧ 2 ^ 32 ≤ truncZ (pr.2.count - pr.1.count)) ∨
          (pr.2.count - pr.1.count < 0 ∧ truncZ (pr.2.count - pr.1.count) ≤ -(2 ^ 31))) →
        p.get_actions t = .err) ∧
      (∀ acts, p.get_actions t = .ok acts → acts = actions_spec p.assets t.assets) :=
  fun _ _ h =>
    ⟨fun hbad => actions_loop_err_of_bad h hbad, fun _ hok => actions_loop_ok_spec hok⟩

/-- Witness for C6 (amended): a buy diff of `2 ^ 32` produces an error. -/
theorem C6_amended_witness :
    Portfolio.get_actions ⟨[aBig], false, 0⟩ ⟨[bBig], false, 0⟩ = .err :=
  (C6_amended_out_of_range_errors ⟨[aBig], false, 0⟩ ⟨[bBig], false, 0⟩ (by decide)).1
    (by decide)

/-! ## Claim C10 -/

/-- C10 (confirmed): in every action emitted by `get_actions`, the amount
is the positional count difference truncated toward zero while the
transaction value is computed from the untruncated difference
(`|diff * original price|`), per `actions_spec`; concretely, a diff of 2.5
at price 10 reports amount 2 but transaction value 25, so amount times
price differs from the transaction value. -/
theorem C10_amount_truncated_value_untruncated :
    (∀ (p t : Portfolio) (acts : List Action), p.get_actions t = .ok acts →
      acts = actions_spec p.assets t.assets) ∧
    (Portfolio.get_actions ⟨[aFrac], false, 0⟩ ⟨[bFrac], false, 0⟩ =
        .ok [⟨.buy, 2, "A", 25 * decScale⟩] ∧
      bFrac.count - aFrac.count = 25 * decScale / 10 ∧
      mulD (2 * decScale) aFrac.price ≠ 25 * decScale) :=
  ⟨fun _ _ _ hok => actions_loop_ok_spec hok, by decide⟩

/-- Witness for C10: the general part applied to the concrete fractional
diff. -/
theorem C10_witness :
    Portfolio.get_actions ⟨[aFrac], false, 0⟩ ⟨[bFrac], false, 0⟩ =
        .ok [⟨.buy, 2, "A", 25 * decScale⟩] ∧
    [(⟨.buy, 2, "A", 25 * decScale⟩ : Action)] = actions_spec [aFrac] [bFrac] :=
  ⟨by decide, C10_amount_truncated_value_untruncated.1 ⟨[aFrac], false, 0⟩
    ⟨[bFrac], false, 0⟩ _ (by decide)⟩

/-! ## Claim C1 -/

theorem dec100_pos : (0 : Int) < dec100 := by norm_num [dec100, decScale]

theorem sum_values_set_alloc (l : List Asset) (g : Asset → Dec) :
    sum_values (l.map (fun a => { a with alloc := g a })) = sum_values l := by
  unfold sum_values
  rw [map_proj_set_alloc Asset.value (fun _ _ => rfl)]

theorem rebalance_assets1_inv (p : Portfolio) :
    ∀ x ∈ rebalance_assets1 p, x.value = mulD x.price x.count := by
  intro x hx
  rcases List.mem_map.mp hx with ⟨y, _, rfl⟩
  rfl

/-- C1 counterexample: `pRound` loads from validated input, and its
rebalance returns a portfolio whose `value` field (4) is not the sum of
its assets' `value` fields (1): the leftover absorption adds the rewritten
currency value on top of a total that already contains the currency's
first-loop value. -/
theorem C1_cex_rebalance_value_not_sum :
    load_portfolio exRound false = .ok pRound ∧
    Portfolio.rebalance pRound = .ok tRound ∧
    tRound.value ≠ sum_values tRound.assets ∧
    tRound.value - sum_values tRound.assets = 3 * decScale := by decide

/-- C1 (amended): every portfolio produced by `load_portfolio`,
`add_without_selling`, or `rebalance` satisfies the per-asset invariant
`value = price * count`; the portfolio-level invariant
`value = sum of asset values` holds for loading and for
`add_without_selling` unconditionally, and for `rebalance` whenever no
positive rounding leftover is absorbed. -/
theorem C1_amended_value_invariants :
    (∀ (input : List AssetIn) (d : Bool) (p : Portfolio),
      load_portfolio input d = .ok p → asset_inv p ∧ sum_inv p) ∧
    (∀ p t : Portfolio, p.add_without_selling = .ok t → asset_inv t ∧ sum_inv t) ∧
    (∀ p t : Portfolio, p.rebalance = .ok t →
      asset_inv t ∧
      (¬ sum_values (rebalance_assets1 p) < p.value → sum_inv t)) := by
  refine ⟨?_, ?_, ?_⟩
  · intro input d p h
    rw [load_eq_cases] at h
    split at h
    · exact absurd h (by simp)
    · split at h
      · exact absurd h (by simp)
      · injection h with h'
        subst h'
        constructor
        · intro a ha
          have ha' : a ∈ (parse_portfolio input d).assets.map
              (fun b => { b with value := mulD b.price b.count }) := ha
          rcases List.mem_map.mp ha' with ⟨b, _, rfl⟩
          rfl
        · exact zero_add _
  · intro p t h
    obtain ⟨c, hc, hp, hrec⟩ := awos_ok_elim h
    obtain ⟨hne, hq⟩ := recalc_ok_elim hrec
    subst hq
    constructor
    · intro a ha
      have ha' : a ∈ (awos_assets p c).map
          (fun b => { b with
            alloc := mulD (divD b.value (sum_values (awos_assets p c))) dec100 }) := ha
      rcases List.mem_map.mp ha' with ⟨b, hb, rfl⟩
      have hb' : b ∈ p.assets.map (fun x =>
          if x.name = CURRENCY then { x with count := 0, value := 0 }
          else
            { x with
              count := x.count + divD (divD (mulD c.value x.alloc) dec100) x.price,
              value := mulD x.price
                (x.count + divD (divD (mulD c.value x.alloc) dec100) x.price) }) := hb
      rcases List.mem_map.mp hb' with ⟨x, _, rfl⟩
      by_cases hxu : x.name = CURRENCY
      · simp only [if_pos hxu]
        exact (mulD_zero_right x.price).symm
      · simp only [if_neg hxu]
    · exact (sum_values_set_alloc _ _).symm
  · intro p t h
    obtain ⟨hp, huntaken, htaken⟩ := rebalance_ok_elim h
    by_cases hv : sum_values (rebalance_assets1 p) < p.value
    · obtain ⟨hne, hq⟩ := recalc_ok_elim (htaken hv)
      subst hq
      refine ⟨?_, fun hcon => absurd hv hcon⟩
      intro a ha
      have ha' : a ∈ ((absorb_leftover (p.value - sum_values (rebalance_assets1 p))
          (rebalance_assets1 p)).1).map
          (fun b => { b with
            alloc := mulD (divD b.value (sum_values (rebalance_assets1 p) +
              (absorb_leftover (p.value - sum_values (rebalance_assets1 p))
                (rebalance_assets1 p)).2)) dec100 }) := ha
      rcases List.mem_map.mp ha' with ⟨b, hb, rfl⟩
      exact absorb_fst_inv (rebalance_assets1_inv p) b hb
    · obtain ⟨hne, hq⟩ := recalc_ok_elim (huntaken hv)
      subst hq
      constructor
      · intro a ha
        have ha' : a ∈ (rebalance_assets1 p).map
            (fun b => { b with
              alloc := mulD (divD b.value (sum_values (rebalance_assets1 p))) dec100 }) := ha
        rcases List.mem_map.mp ha' with ⟨b, hb, rfl⟩
        exact rebalance_assets1_inv p b hb
      · intro _
        exact (sum_values_set_alloc _ _).symm

/-- The result of `add_without_selling pSpec` (the spec's worked example
with `donotsell`). -/
def tSpecA : Portfolio :=
  ⟨[⟨"USD", decScale, 0, 0, 0⟩,
    ⟨"STK", 10 * decScale, 25 * decScale, 100 * decScale, 250 * decScale⟩],
   false, 250 * decScale⟩

/-- The result of `rebalance pSpec` (the spec's worked example). -/
def tSpecR : Portfolio :=
  ⟨[⟨"USD", decScale, 250 * decScale, 50 * decScale, 250 * decScale⟩,
    ⟨"STK", 10 * decScale, 25 * decScale, 50 * decScale, 250 * decScale⟩],
   false, 500 * decScale⟩

/-- Witness for C1 (amended), on the spec's worked example. -/
theorem C1_amended_witness :
    (asset_inv pSpec ∧ sum_inv pSpec) ∧ (asset_inv tSpecA ∧ sum_inv tSpecA) ∧
      (asset_inv tSpecR ∧ sum_inv tSpecR) := by
  refine ⟨C1_amended_value_invariants.1 exSpec false pSpec (by decide),
    C1_amended_value_invariants.2.1 pSpec tSpecA (by decide), ?_⟩
  have h := C1_amended_value_invariants.2.2 pSpec tSpecR (by decide)
  exact ⟨h.1, h.2 (by decide)⟩

/-! ## Claim C2 -/

/-- The currency of a portfolio, seen in the first rebalancing loop's
output: same position, same name, same price. -/
theorem currency_in_rebalance_assets1 {p : Portfolio} {c : Asset}
    (hc : p.get_currency = some c) :
    ∃ a ∈ rebalance_assets1 p, a.name = CURRENCY := by
  have hcm : c ∈ p.assets := List.mem_of_find?_eq_some hc
  have hcn : c.name = CURRENCY := by
    have h := List.find?_some hc
    simpa using h
  exact ⟨_, List.mem_map_of_mem _ hcm, hcn⟩

/-- Identifying the asset rewritten by the leftover loop: it is the image
of `get_currency`'s result under the first loop, so it keeps the
currency's price. -/
theorem absorb_is_currency_image {p : Portfolio} {c : Asset} {l1 l2 : List Asset} {a : Asset}
    (hc : p.get_currency = some c)
    (hdec : rebalance_assets1 p = l1 ++ a :: l2)
    (hl1 : ∀ b ∈ l1, b.name ≠ CURRENCY) (han : a.name = CURRENCY) :
    a.price = c.price := by
  have hfd : (rebalance_assets1 p).find? (fun x => x.name = CURRENCY) = some a := by
    rw [hdec]
    exact find?_decomp (fun b hb => by simpa using hl1 b hb) (by simpa using han)
  have hfm : (rebalance_assets1 p).find? (fun x => x.name = CURRENCY) =
      (p.assets.find? (fun x => x.name = CURRENCY)).map
        (fun x =>
          { x with
            count := divD (divD (mulD p.value x.alloc) dec100) x.price,
            value := mulD x.price (divD (divD (mulD p.value x.alloc) dec100) x.price) }) :=
    find?_currency_map (fun _ => rfl)
  rw [Portfolio.get_currency] at hc
  rw [hfm, hc] at hfd
  injection hfd with hfc
  rw [← hfc]

/-- C2 counterexample: `pRound2` is validated (it loads), its rebalance
leaves a non-negative rounding leftover, yet the returned portfolio's
`value` is `4 + 10 ^ -28`, not the original 4 — the leftover is absorbed
at the currency's price 2. -/
theorem C2_cex_value_not_conserved :
    load_portfolio exRound2 false = .ok pRound2 ∧
    sum_values (rebalance_assets1 pRound2) ≤ pRound2.value ∧
    Portfolio.rebalance pRound2 = .ok tRound2 ∧
    tRound2.value ≠ pRound2.value := by decide

/-- C2 (amended): whenever `rebalance` succeeds with a non-negative
rounding leftover and the base-currency asset's price is 1, the returned
portfolio's `value` equals the original's. -/
theorem C2_amended_value_conserved :
    ∀ (p t : Portfolio) (c : Asset), p.get_currency = some c → c.price = decScale →
      p.rebalance = .ok t → sum_values (rebalance_assets1 p) ≤ p.value →
      t.value = p.value := by
  intro p t c hc hcp h hle
  obtain ⟨hp, huntaken, htaken⟩ := rebalance_ok_elim h
  by_cases hv : sum_values (rebalance_assets1 p) < p.value
  · obtain ⟨l1, a, l2, hdec, hl1, han, habs⟩ :=
      absorb_char (p.value - sum_values (rebalance_assets1 p))
        (currency_in_rebalance_assets1 hc)
    have hap : a.price = decScale := (absorb_is_currency_image hc hdec hl1 han).trans hcp
    obtain ⟨hne, hq⟩ := recalc_ok_elim (htaken hv)
    subst hq
    show sum_values (rebalance_assets1 p) +
        (absorb_leftover (p.value - sum_values (rebalance_assets1 p))
          (rebalance_assets1 p)).2 = p.value
    rw [habs]
    show sum_values (rebalance_assets1 p) +
        mulD a.price (p.value - sum_values (rebalance_assets1 p)) = p.value
    rw [hap, mulD_scale_left]
    ring
  · have heq : sum_values (rebalance_assets1 p) = p.value := le_antisymm hle (not_lt.mp hv)
    obtain ⟨hne, hq⟩ := recalc_ok_elim (huntaken hv)
    subst hq
    exact heq

/-- Witness for C2 (amended): the rounding portfolio with a price-1
currency conserves total value. -/
theorem C2_amended_witness : tRound.value = pRound.value :=
  C2_amended_value_conserved pRound tRound ⟨"USD", decScale, 4 * decScale, 75 * decScale, 4 * decScale⟩
    (by decide) (by decide) (by decide) (by decide)

/-! ## Claim C3 -/

/-- C3 counterexample: for `pRound`, the first loop gives the currency
count 3 and the leftover is `10 ^ -28` (scaled: 1), but the final currency
count is the bare leftover `10 ^ -28` — the code overwrites the currency
count with the leftover instead of adding the leftover onto it. -/
theorem C3_cex_leftover_overwrites_count :
    Portfolio.rebalance pRound = .ok tRound ∧
    (rebalance_assets1 pRound).map Asset.count =
      [3 * decScale, 3333333333333333333333333333] ∧
    pRound.value - sum_values (rebalance_assets1 pRound) = 1 ∧
    tRound.assets.map Asset.count = [1, 3333333333333333333333333333] ∧
    (1 : Dec) ≠ 3 * decScale + 1 := by decide

/-- C3 (amended): `rebalance` first sets every asset's count to
`(original.value * alloc / 100) / price` and its value to `price * count`;
when the original value exceeds the recomputed total (and a currency asset
exists), the leftover step rewrites the first asset named `"USD"`,
*replacing* its count with the entire leftover `original.value - total`
(and its value with `price * leftover`), and leaves every other asset's
count and value unchanged. -/
theorem C3_amended_leftover_replaces_currency_count :
    ∀ p t : Portfolio, p.rebalance = .ok t →
      (rebalance_assets1 p = p.assets.map (fun a =>
        { a with
          count := divD (divD (mulD p.value a.alloc) dec100) a.price,
          value := mulD a.price (divD (divD (mulD p.value a.alloc) dec100) a.price) })) ∧
      (¬ sum_values (rebalance_assets1 p) < p.value →
        t.assets.map (fun x => (x.name, x.count, x.value)) =
          (rebalance_assets1 p).map (fun x => (x.name, x.count, x.value))) ∧
      (sum_values (rebalance_assets1 p) < p.value → Portfolio.has_currency p = true →
        ∃ l1 a l2, rebalance_assets1 p = l1 ++ a :: l2 ∧
          (∀ b ∈ l1, b.name ≠ CURRENCY) ∧ a.name = CURRENCY ∧
          t.assets.map (fun x => (x.name, x.count, x.value)) =
            (l1 ++ { a with
                count := p.value - sum_values (rebalance_assets1 p),
                value := mulD a.price (p.value - sum_values (rebalance_assets1 p)) } ::
              l2).map (fun x => (x.name, x.count, x.value))) := by
  intro p t h
  obtain ⟨hp, huntaken, htaken⟩ := rebalance_ok_elim h
  refine ⟨rfl, ?_, ?_⟩
  · intro hv
    obtain ⟨hne, hq⟩ := recalc_ok_elim (huntaken hv)
    subst hq
    exact map_proj_set_alloc (fun x => (x.name, x.count, x.value)) (fun _ _ => rfl) _ _
  · intro hv hcur
    obtain ⟨c, hc⟩ := Option.isSome_iff_exists.mp hcur
    obtain ⟨l1, a, l2, hdec, hl1, han, habs⟩ :=
      absorb_char (p.value - sum_values (rebalance_assets1 p))
        (currency_in_rebalance_assets1 hc)
    obtain ⟨hne, hq⟩ := recalc_ok_elim (htaken hv)
    subst hq
    refine ⟨l1, a, l2, hdec, hl1, han, ?_⟩
    have h1 : (absorb_leftover (p.value - sum_values (rebalance_assets1 p))
        (rebalance_assets1 p)).1 =
        l1 ++ { a with
          count := p.value - sum_values (rebalance_assets1 p),
          value := mulD a.price (p.value - sum_values (rebalance_assets1 p)) } :: l2 := by
      rw [habs]
    rw [map_proj_set_alloc (fun x => (x.name, x.count, x.value)) (fun _ _ => rfl), h1]

/-- Witness for C3 (amended): the decomposition instantiated on the
rounding example. -/
theorem C3_amended_witness :
    ∃ l1 a l2, rebalance_assets1 pRound = l1 ++ a :: l2 ∧
      (∀ b ∈ l1, b.name ≠ CURRENCY) ∧ a.name = CURRENCY ∧
      tRound.assets.map (fun x => (x.name, x.count, x.value)) =
        (l1 ++ { a with
            count := pRound.value - sum_values (rebalance_assets1 pRound),
            value := mulD a.price (pRound.value - sum_values (rebalance_assets1 pRound)) } ::
          l2).map (fun x => (x.name, x.count, x.value)) :=
  (C3_amended_leftover_replaces_currency_count pRound tRound (by decide)).2.2
    (by decide) (by decide)

/-! ## Claim C4 -/

/-- Positional pairing of a list with its own image: the second component
of each zip pair is the image of the first. -/
theorem zip_map_self_mem {f : Asset → Asset} : ∀ {l : List Asset} {pr : Asset × Asset},
    pr ∈ l.zip (l.map f) → pr.2 = f pr.1 := by
  intro l
  induction l with
  | nil =>
    intro pr h
    simp at h
  | cons a t ih =>
    intro pr h
    rw [List.map_cons, List.zip_cons_cons] at h
    rcases List.mem_cons.mp h with rfl | h'
    · rfl
    · exact ih h'

/-- C4 counterexample: `pNeg` loads (its allocations sum to 100 even
though one is negative), and `add_without_selling` *reduces* the
non-currency asset's count from 10 to -40. -/
theorem C4_cex_count_decreases :
    load_portfolio exNeg false = .ok pNeg ∧
    Portfolio.add_without_selling pNeg = .ok tNeg ∧
    pNeg.assets.map (fun a => (a.name, a.count)) =
      [("USD", 100 * decScale), ("A", 10 * decScale)] ∧
    tNeg.assets.map (fun a => (a.name, a.count)) =
      [("USD", 0), ("A", -(40 * decScale))] ∧
    ¬ (10 * decScale : Dec) ≤ -(40 * decScale) := by decide

/-- C4 (amended): `add_without_selling` gives every non-currency asset the
count `original.count + (currency.value * alloc / 100) / price` and zeroes
every asset named `"USD"`; counts of non-currency assets never decrease
*provided* the currency's value is non-negative and every allocation is
non-negative with a positive price. -/
theorem C4_amended_topup_counts :
    ∀ (p : Portfolio) (c : Asset) (t : Portfolio),
      p.get_currency = some c → p.add_without_selling = .ok t →
      (t.assets.map (fun a => (a.name, a.count)) =
        p.assets.map (fun a => (a.name,
          if a.name = CURRENCY then 0
          else a.count + divD (divD (mulD c.value a.alloc) dec100) a.price))) ∧
      (∀ a ∈ t.assets, a.name = CURRENCY → a.count = 0 ∧ a.value = 0) ∧
      ((0 ≤ c.value ∧ ∀ a ∈ p.assets, 0 ≤ a.alloc ∧ 0 < a.price) →
        ∀ pr ∈ p.assets.zip t.assets, pr.1.name ≠ CURRENCY →
          pr.1.count ≤ pr.2.count) := by
  intro p c t hc h
  obtain ⟨c', hc', hp, hrec⟩ := awos_ok_elim h
  rw [hc] at hc'
  injection hc' with hcc
  subst hcc
  obtain ⟨hne, hq⟩ := recalc_ok_elim hrec
  have ht : t.assets = p.assets.map (fun x =>
      (fun b => { b with
        alloc := mulD (divD b.value (sum_values (awos_assets p c))) dec100 })
      (if x.name = CURRENCY then { x with count := 0, value := 0 }
       else
        { x with
          count := x.count + divD (divD (mulD c.value x.alloc) dec100) x.price,
          value := mulD x.price
            (x.count + divD (divD (mulD c.value x.alloc) dec100) x.price) })) := by
    rw [hq]
    show (awos_assets p c).map _ = _
    rw [awos_assets, List.map_map]
    rfl
  refine ⟨?_, ?_, ?_⟩
  · rw [ht, List.map_map]
    refine List.map_congr_left (fun a _ => ?_)
    by_cases ha : a.name = CURRENCY <;> simp [ha, Function.comp]
  · intro a ha hname
    rw [ht] at ha
    rcases List.mem_map.mp ha with ⟨x, _, rfl⟩
    by_cases hxu : x.name = CURRENCY
    · constructor <;> simp [hxu]
    · exfalso
      exact hxu (by simp [hxu] at hname)
  · rintro ⟨hcv, hall⟩ pr hpr hname
    have hmem : pr.1 ∈ p.assets := (List.of_mem_zip hpr).1
    rw [ht] at hpr
    have h2 := zip_map_self_mem hpr
    obtain ⟨hal, hpr1⟩ := hall pr.1 hmem
    have hadd : 0 ≤ divD (divD (mulD c.value pr.1.alloc) dec100) pr.1.price :=
      divD_nonneg (divD_nonneg (mulD_nonneg hcv hal) dec100_pos) hpr1
    have hcount : pr.2.count =
        pr.1.count + divD (divD (mulD c.value pr.1.alloc) dec100) pr.1.price := by
      rw [h2]
      simp [hname]
    rw [hcount]
    exact le_add_of_nonneg_right hadd

/-- The result of `add_without_selling pHold`. -/
def tHoldA : Portfolio :=
  ⟨[⟨"USD", decScale, 0, 0, 0⟩,
    ⟨"STK", 10 * decScale, 26 * decScale, 100 * decScale, 260 * decScale⟩],
   false, 260 * decScale⟩

/-- Witness for C4 (amended), on the holding example: the STK count grows
from 1 to 26 and USD is zeroed. -/
theorem C4_amended_witness :
    (tHoldA.assets.map (fun a => (a.name, a.count)) =
      pHold.assets.map (fun a => (a.name,
        if a.name = CURRENCY then 0
        else a.count + divD (divD (mulD (500 * decScale) a.alloc) dec100) a.price))) ∧
    (∀ a ∈ tHoldA.assets, a.name = CURRENCY → a.count = 0 ∧ a.value = 0) ∧
    ∀ pr ∈ pHold.assets.zip tHoldA.assets, pr.1.name ≠ CURRENCY →
      pr.1.count ≤ pr.2.count := by
  have h := C4_amended_topup_counts pHold
    ⟨"USD", decScale, 500 * decScale, 50 * decScale, 500 * decScale⟩ tHoldA
    (by decide) (by decide)
  exact ⟨h.1, h.2.1, h.2.2 (by decide)⟩

/-! ## Claim C5 -/

/-- C5: the totality claim fails on the code.  The all-zero-count
portfolio `exZero` passes every load-time validation (allocation sum 100,
a `"USD"` asset present) but has total value 0, and `rebalance` then
panics on it: `recalc_allocation` computes `alloc = value / portfolio.value`
with `portfolio.value = 0`, and `rust_decimal` division panics on a zero
divisor.  This theorem evaluates the embedded code at that failing
input.  (Beyond this model, `rust_decimal`'s 96-bit overflow panics give
further failing inputs at extreme magnitudes, e.g. `value * alloc` in
`rebalance` overflowing for a loaded portfolio of value `10^27` with
alloc 100; see the model notes at the top of this file.) -/
theorem C5_cex_rebalance_panics_after_load :
    load_portfolio exZero false = .ok pZero ∧
    Portfolio.rebalance pZero = .crash := by decide

end Rebalancer
